import Mathlib

/-!
Shallow embedding of the attitude-estimation core of the 3D_Pose_ays
repository (files desktop_app/utils/quaternion.py and
desktop_app/utils/kalman_filter.py), over exact real arithmetic.
Python floats are modelled as real numbers; Lean's total real division
(x / 0 = 0) stands in for IEEE division, and places where the Python code
would produce NaN or Inf from a zero divisor are noted at the relevant
theorems.
-/

noncomputable section

namespace Pose

open Matrix

/-- Degrees to radians, as Python math.radians. -/
def radiansOf (d : ℝ) : ℝ := d * (Real.pi / 180)

/-- Radians to degrees, as Python math.degrees. -/
def degreesOf (r : ℝ) : ℝ := r * (180 / Real.pi)

/-- Python math.atan2 on real arguments (signed zeros do not exist in ℝ). -/
def atan2 (y x : ℝ) : ℝ :=
  if 0 < x then Real.arctan (y / x)
  else if x < 0 then
    (if 0 ≤ y then Real.arctan (y / x) + Real.pi else Real.arctan (y / x) - Real.pi)
  else
    (if 0 < y then Real.pi / 2 else if y < 0 then -(Real.pi / 2) else 0)

/-- A quaternion value (w, x, y, z); the four entries of the numpy array
self.q of MadgwickQuaternion. -/
structure Quat where
  w : ℝ
  x : ℝ
  y : ℝ
  z : ℝ

/-- Euclidean norm of a quaternion: math.sqrt of the sum of squared components. -/
def qnorm (v : Quat) : ℝ := Real.sqrt (v.w * v.w + v.x * v.x + v.y * v.y + v.z * v.z)

/-- Componentwise division of a quaternion by its own norm: the unguarded
renormalization at quaternion.py lines 124-128 and 150-154.  In real
arithmetic a zero norm sends every component to 0 (in IEEE floats it would
produce NaN); there is no zero test in the source. -/
def qdivNorm (v : Quat) : Quat :=
  ⟨v.w / qnorm v, v.x / qnorm v, v.y / qnorm v, v.z / qnorm v⟩

/-- State of MadgwickQuaternion: gain beta, sample period, quaternion and
update counter (quaternion.py lines 34-42). -/
structure MadgwickState where
  beta : ℝ
  samplePeriod : ℝ
  q : Quat
  updateCount : ℕ

/-- MadgwickQuaternion.__init__ / reset: identity quaternion, zero counter. -/
def madgwickInit (beta sampleFreq : ℝ) : MadgwickState :=
  ⟨beta, 1 / sampleFreq, ⟨1, 0, 0, 0⟩, 0⟩

/-- Gyro-only integration (quaternion.py lines 137-147), before the
renormalization; gx gy gz are in radians per second. -/
def MadgwickState.gyroIntegrated (s : MadgwickState) (gx gy gz dt : ℝ) : Quat :=
  let q0 := s.q.w
  let q1 := s.q.x
  let q2 := s.q.y
  let q3 := s.q.z
  let qDot1 := 0.5 * (-q1 * gx - q2 * gy - q3 * gz)
  let qDot2 := 0.5 * (q0 * gx + q2 * gz - q3 * gy)
  let qDot3 := 0.5 * (q0 * gy - q1 * gz + q3 * gx)
  let qDot4 := 0.5 * (q0 * gz + q1 * gy - q2 * gx)
  ⟨q0 + qDot1 * dt, q1 + qDot2 * dt, q2 + qDot3 * dt, q3 + qDot4 * dt⟩

/-- The method _update_imu_gyro_only: integrate the gyro rates, then divide
by the norm with no zero-norm guard (lines 150-154). -/
def MadgwickState.updateGyroOnly (s : MadgwickState) (gx gy gz dt : ℝ) : MadgwickState :=
  { s with q := qdivNorm (s.gyroIntegrated gx gy gz dt) }

/-- The corrected quaternion of the accelerometer path of
MadgwickQuaternion.update (lines 74-121), before renormalization: normalize
the accelerometer, form the gradient (divided by its norm only when that
norm is positive, line 105), form the gyro quaternion derivative, and
integrate.  Gyro arguments are radians per second. -/
def MadgwickState.corrected (s : MadgwickState)
    (accelX accelY accelZ gx gy gz dt : ℝ) : Quat :=
  let anorm := Real.sqrt (accelX * accelX + accelY * accelY + accelZ * accelZ)
  let ax := accelX / anorm
  let ay := accelY / anorm
  let az := accelZ / anorm
  let q0 := s.q.w
  let q1 := s.q.x
  let q2 := s.q.y
  let q3 := s.q.z
  let _2q0 := 2.0 * q0
  let _2q1 := 2.0 * q1
  let _2q2 := 2.0 * q2
  let _2q3 := 2.0 * q3
  let _4q0 := 4.0 * q0
  let _4q1 := 4.0 * q1
  let _4q2 := 4.0 * q2
  let _8q1 := 8.0 * q1
  let _8q2 := 8.0 * q2
  let q0q0 := q0 * q0
  let q1q1 := q1 * q1
  let q2q2 := q2 * q2
  let q3q3 := q3 * q3
  let s0 := _4q0 * q2q2 + _2q2 * ax + _4q0 * q1q1 - _2q1 * ay
  let s1 := _4q1 * q3q3 - _2q3 * ax + 4.0 * q0q0 * q1 - _2q0 * ay - _4q1 +
      _8q1 * q1q1 + _8q1 * q2q2 + _4q1 * az
  let s2 := 4.0 * q0q0 * q2 + _2q0 * ax + _4q2 * q3q3 - _2q3 * ay - _4q2 +
      _8q2 * q1q1 + _8q2 * q2q2 + _4q2 * az
  let s3 := 4.0 * q1q1 * q3 - _2q1 * ax + 4.0 * q2q2 * q3 - _2q2 * ay
  let snorm := Real.sqrt (s0 * s0 + s1 * s1 + s2 * s2 + s3 * s3)
  let s0n := if 0 < snorm then s0 / snorm else s0
  let s1n := if 0 < snorm then s1 / snorm else s1
  let s2n := if 0 < snorm then s2 / snorm else s2
  let s3n := if 0 < snorm then s3 / snorm else s3
  let qDot1 := 0.5 * (-q1 * gx - q2 * gy - q3 * gz)
  let qDot2 := 0.5 * (q0 * gx + q2 * gz - q3 * gy)
  let qDot3 := 0.5 * (q0 * gy - q1 * gz + q3 * gx)
  let qDot4 := 0.5 * (q0 * gz + q1 * gy - q2 * gx)
  ⟨q0 + (qDot1 - s.beta * s0n) * dt,
   q1 + (qDot2 - s.beta * s1n) * dt,
   q2 + (qDot3 - s.beta * s2n) * dt,
   q3 + (qDot4 - s.beta * s3n) * dt⟩

/-- MadgwickQuaternion.update (quaternion.py lines 44-133): convert the gyro
rates to radians, take the gyro-only path when the accelerometer norm is
zero, otherwise apply the gradient-corrected step and divide by the norm
with no zero-norm guard (lines 124-128).  The Euler angles the Python method
returns are MadgwickState.get_euler_angles of the new state. -/
def MadgwickState.update (s : MadgwickState)
    (accelX accelY accelZ gyroX gyroY gyroZ dt : ℝ) : MadgwickState :=
  let gx := radiansOf gyroX
  let gy := radiansOf gyroY
  let gz := radiansOf gyroZ
  if Real.sqrt (accelX * accelX + accelY * accelY + accelZ * accelZ) = 0 then
    s.updateGyroOnly gx gy gz dt
  else
    { s with q := qdivNorm (s.corrected accelX accelY accelZ gx gy gz dt),
             updateCount := s.updateCount + 1 }

/-- MadgwickQuaternion.get_euler_angles (lines 158-185), result in degrees. -/
def MadgwickState.get_euler_angles (s : MadgwickState) : ℝ × ℝ × ℝ :=
  let q0 := s.q.w
  let q1 := s.q.x
  let q2 := s.q.y
  let q3 := s.q.z
  let sinr_cosp := 2.0 * (q0 * q1 + q2 * q3)
  let cosr_cosp := 1.0 - 2.0 * (q1 * q1 + q2 * q2)
  let roll := atan2 sinr_cosp cosr_cosp
  let sinp := 2.0 * (q0 * q2 - q3 * q1)
  let pitch :=
    if 1 ≤ |sinp| then (if 0 ≤ sinp then Real.pi / 2 else -(Real.pi / 2))
    else Real.arcsin sinp
  let siny_cosp := 2.0 * (q0 * q3 + q1 * q2)
  let cosy_cosp := 1.0 - 2.0 * (q2 * q2 + q3 * q3)
  let yaw := atan2 siny_cosp cosy_cosp
  (degreesOf roll, degreesOf pitch, degreesOf yaw)

/-- MadgwickQuaternion.set_beta (lines 232-239): clamp into 0.01 to 0.5. -/
def MadgwickState.set_beta (s : MadgwickState) (beta : ℝ) : MadgwickState :=
  { s with beta := max 0.01 (min 0.5 beta) }

/-- State of AttitudeCalculator: the inherited Madgwick state plus the
stored compatibility Euler angles (quaternion.py lines 277-280). -/
structure AttitudeCalcState where
  mad : MadgwickState
  roll : ℝ
  pitch : ℝ
  yaw : ℝ

/-- AttitudeCalculator.__init__ (lines 263-280): beta = (1 - alpha) * 2
clamped below by 0.033 and above by 0.3, sample frequency 10 Hz, zero
stored angles. -/
def attitudeCalcInit (alpha : ℝ) : AttitudeCalcState :=
  ⟨madgwickInit (max 0.033 (min 0.3 ((1 - alpha) * 2.0))) 10.0, 0, 0, 0⟩

/-- AttitudeCalculator.update (lines 282-303): run the Madgwick update,
store the resulting Euler angles, and return them. -/
def AttitudeCalcState.update (s : AttitudeCalcState)
    (accelX accelY accelZ gyroX gyroY gyroZ dt : ℝ) :
    AttitudeCalcState × (ℝ × ℝ × ℝ) :=
  let m := s.mad.update accelX accelY accelZ gyroX gyroY gyroZ dt
  let e := m.get_euler_angles
  (⟨m, e.1, e.2.1, e.2.2⟩, e)

/-- Module-level euler_to_quaternion (quaternion.py lines 306-332); the
input angles are in degrees. -/
def euler_to_quaternion (roll pitch yaw : ℝ) : Quat :=
  let cr := Real.cos (radiansOf roll * 0.5)
  let sr := Real.sin (radiansOf roll * 0.5)
  let cp := Real.cos (radiansOf pitch * 0.5)
  let sp := Real.sin (radiansOf pitch * 0.5)
  let cy := Real.cos (radiansOf yaw * 0.5)
  let sy := Real.sin (radiansOf yaw * 0.5)
  ⟨cr * cp * cy + sr * sp * sy,
   sr * cp * cy - cr * sp * sy,
   cr * sp * cy + sr * cp * sy,
   cr * cp * sy - sr * sp * cy⟩

/-- Module-level quaternion_to_euler (quaternion.py lines 335-362); the
result is in degrees. -/
def quaternion_to_euler (w x y z : ℝ) : ℝ × ℝ × ℝ :=
  let sinr_cosp := 2 * (w * x + y * z)
  let cosr_cosp := 1 - 2 * (x * x + y * y)
  let roll := atan2 sinr_cosp cosr_cosp
  let sinp := 2 * (w * y - z * x)
  let pitch :=
    if 1 ≤ |sinp| then (if 0 ≤ sinp then Real.pi / 2 else -(Real.pi / 2))
    else Real.arcsin sinp
  let siny_cosp := 2 * (w * z + x * y)
  let cosy_cosp := 1 - 2 * (y * y + z * z)
  let yaw := atan2 siny_cosp cosy_cosp
  (degreesOf roll, degreesOf pitch, degreesOf yaw)

/-- First loop of ExtendedKalmanFilter._normalize_angle (kalman_filter.py
line 280-281): while angle is greater than pi, subtract 2 pi.  The loop
terminates for every real input; the measure is the number of remaining
iterations. -/
def wrapDown (a : ℝ) : ℝ :=
  if h : Real.pi < a then wrapDown (a - 2 * Real.pi) else a
termination_by (Int.ceil ((a - Real.pi) / (2 * Real.pi))).toNat
decreasing_by
  have hpi := Real.pi_pos
  have hq : (a - 2 * Real.pi - Real.pi) / (2 * Real.pi) =
      (a - Real.pi) / (2 * Real.pi) - 1 := by
    field_simp
    ring
  have hpos : 0 < (a - Real.pi) / (2 * Real.pi) := by
    apply div_pos <;> linarith
  have hceil : 1 ≤ Int.ceil ((a - Real.pi) / (2 * Real.pi)) := by
    have := Int.ceil_pos.mpr hpos
    omega
  rw [hq, Int.ceil_sub_one]
  omega

/-- Second loop of ExtendedKalmanFilter._normalize_angle (kalman_filter.py
line 282-283): while angle is less than minus pi, add 2 pi. -/
def wrapUp (a : ℝ) : ℝ :=
  if h : a < -Real.pi then wrapUp (a + 2 * Real.pi) else a
termination_by (Int.ceil ((-Real.pi - a) / (2 * Real.pi))).toNat
decreasing_by
  have hpi := Real.pi_pos
  have hq : (-Real.pi - (a + 2 * Real.pi)) / (2 * Real.pi) =
      (-Real.pi - a) / (2 * Real.pi) - 1 := by
    field_simp
    ring
  have hpos : 0 < (-Real.pi - a) / (2 * Real.pi) := by
    apply div_pos <;> linarith
  have hceil : 1 ≤ Int.ceil ((-Real.pi - a) / (2 * Real.pi)) := by
    have := Int.ceil_pos.mpr hpos
    omega
  rw [hq, Int.ceil_sub_one]
  omega

/-- ExtendedKalmanFilter._normalize_angle (kalman_filter.py lines 278-284):
both wrapping loops in source order. -/
def normalize_angle (a : ℝ) : ℝ := wrapUp (wrapDown a)

/-- State of ExtendedKalmanFilter (kalman_filter.py lines 34-57): the
6-vector [roll, pitch, yaw, biasX, biasY, biasZ], the covariance P, the
process noise Q, the two measurement covariances, the gyro noise and the
two trust factors. -/
structure EKFState where
  state : Fin 6 → ℝ
  P : Matrix (Fin 6) (Fin 6) ℝ
  Q : Matrix (Fin 6) (Fin 6) ℝ
  R_accel : Matrix (Fin 3) (Fin 3) ℝ
  R_mag : Matrix (Fin 1) (Fin 1) ℝ
  gyro_noise : ℝ
  accel_trust_factor : ℝ
  mag_trust_factor : ℝ
  update_count : ℕ

/-- ExtendedKalmanFilter.__init__ (lines 24-57): zero state, P the identity,
Q the identity with the attitude block scaled by the process noise and the
bias block by a thousandth of it, diagonal measurement covariances. -/
def ekfInit (process_noise accel_noise gyro_noise mag_noise : ℝ) : EKFState where
  state := fun _ => 0
  P := 1
  Q := Matrix.diagonal (fun i => if (i : ℕ) < 3 then process_noise else process_noise * 0.001)
  R_accel := Matrix.diagonal (fun _ => accel_noise ^ 2)
  R_mag := Matrix.diagonal (fun _ => mag_noise ^ 2)
  gyro_noise := gyro_noise
  accel_trust_factor := 1.0
  mag_trust_factor := 1.0
  update_count := 0

/-- The clamping of cos(pitch) away from zero used by predict and by the
state Jacobian (kalman_filter.py lines 94-95 and 248-249). -/
def clampCos (c : ℝ) : ℝ :=
  if |c| < 0.01 then (if 0 ≤ c then 0.01 else -0.01) else c

/-- Normalization of the three attitude components of the state vector,
applied after every mutation of the state (lines 109-111, 182-184, 226-228). -/
def normalizeFirst3 (v : Fin 6 → ℝ) : Fin 6 → ℝ :=
  fun i => if (i : ℕ) < 3 then normalize_angle (v i) else v i

/-- ExtendedKalmanFilter._compute_state_jacobian (lines 234-276), evaluated
at attitude (roll, pitch) and bias-corrected rates gx gy gz. -/
def Fjac (roll pitch gx gy gz dt : ℝ) : Matrix (Fin 6) (Fin 6) ℝ :=
  let sin_roll := Real.sin roll
  let cos_roll := Real.cos roll
  let sin_pitch := Real.sin pitch
  let cos_pitch := clampCos (Real.cos pitch)
  let tan_pitch := Real.tan pitch
  Matrix.of
    ![![1.0 + dt * (cos_roll * tan_pitch * gy - sin_roll * tan_pitch * gz),
       dt * (sin_roll / (cos_pitch ^ 2) * gy + cos_roll / (cos_pitch ^ 2) * gz),
       0, -dt, -dt * sin_roll * tan_pitch, -dt * cos_roll * tan_pitch],
      ![dt * (-sin_roll * gy - cos_roll * gz), 1.0, 0, 0, -dt * cos_roll, dt * sin_roll],
      ![dt * ((cos_roll / cos_pitch) * gy - (sin_roll / cos_pitch) * gz),
       dt * (sin_roll * sin_pitch / (cos_pitch ^ 2) * gy +
             cos_roll * sin_pitch / (cos_pitch ^ 2) * gz),
       1.0, 0, -dt * sin_roll / cos_pitch, -dt * cos_roll / cos_pitch],
      ![0, 0, 0, 1, 0, 0],
      ![0, 0, 0, 0, 1, 0],
      ![0, 0, 0, 0, 0, 1]]

/-- ExtendedKalmanFilter.predict (lines 59-118): bias-corrected Euler-rate
propagation of the attitude, angle normalization, and the covariance update
P = F * P * F transposed + Q, with F evaluated at the already-updated state
as in the source. -/
def EKFState.predict (s : EKFState) (gyroX gyroY gyroZ dt : ℝ) : EKFState :=
  let gx := radiansOf gyroX
  let gy := radiansOf gyroY
  let gz := radiansOf gyroZ
  let gxc := gx - s.state 3
  let gyc := gy - s.state 4
  let gzc := gz - s.state 5
  let roll := s.state 0
  let pitch := s.state 1
  let sin_roll := Real.sin roll
  let cos_roll := Real.cos roll
  let cos_pitch := clampCos (Real.cos pitch)
  let tan_pitch := Real.tan pitch
  let droll := gxc + sin_roll * tan_pitch * gyc + cos_roll * tan_pitch * gzc
  let dpitch := cos_roll * gyc - sin_roll * gzc
  let dyaw := (sin_roll / cos_pitch) * gyc + (cos_roll / cos_pitch) * gzc
  let st1 : Fin 6 → ℝ := fun i =>
    if i = 0 then roll + droll * dt
    else if i = 1 then pitch + dpitch * dt
    else if i = 2 then s.state 2 + dyaw * dt
    else s.state i
  let st2 := normalizeFirst3 st1
  let F := Fjac (st2 0) (st2 1) gxc gyc gzc dt
  { s with state := st2, P := F * s.P * F.transpose + s.Q }

/-- The accel trust factor as a function of the accelerometer norm
(kalman_filter.py lines 138-144). -/
def accelTrust (n : ℝ) : ℝ :=
  if 0.5 < |n - 1.0| then 0.3 else if 0.2 < |n - 1.0| then 0.7 else 1.0

/-- The fixed accelerometer measurement Jacobian H (lines 165-168). -/
def Haccel : Matrix (Fin 3) (Fin 6) ℝ :=
  Matrix.of ![![1, 0, 0, 0, 0, 0], ![0, 1, 0, 0, 0, 0], ![0, 0, 0, 0, 0, 0]]

/-- The effective accelerometer measurement covariance used in the gain:
R_accel scaled by one over max(0.1, trust) (lines 170-172), with the trust
recomputed from the accelerometer norm n. -/
def EKFState.accelR (s : EKFState) (n : ℝ) : Matrix (Fin 3) (Fin 3) ℝ :=
  (1 / max 0.1 (accelTrust n)) • s.R_accel

/-- The accelerometer innovation covariance S = H * P * H transposed + R
(line 175). -/
def EKFState.accelS (s : EKFState) (n : ℝ) : Matrix (Fin 3) (Fin 3) ℝ :=
  Haccel * s.P * Haccel.transpose + s.accelR n

/-- The accelerometer Kalman gain K = P * H transposed * S inverse
(line 176). -/
def EKFState.accelK (s : EKFState) (n : ℝ) : Matrix (Fin 6) (Fin 3) ℝ :=
  s.P * Haccel.transpose * (s.accelS n)⁻¹

/-- ExtendedKalmanFilter.update_accel (lines 120-188): reject when the norm
is below 0.1, otherwise recompute the trust factor, form the roll and pitch
measurements, correct the state through the Kalman gain, normalize the
attitude angles and update P = (I - K * H) * P. -/
def EKFState.update_accel (s : EKFState) (accelX accelY accelZ : ℝ) : EKFState :=
  let norm := Real.sqrt (accelX ^ 2 + accelY ^ 2 + accelZ ^ 2)
  if norm < 0.1 then s
  else
    let ax := accelX / norm
    let ay := accelY / norm
    let az := accelZ / norm
    let trust := accelTrust norm
    let measured_roll := atan2 ay az
    let measured_pitch := atan2 (-ax) (Real.sqrt (ay ^ 2 + az ^ 2))
    let y0 := normalize_angle (measured_roll - s.state 0)
    let y1 := normalize_angle (measured_pitch - s.state 1)
    let yv : Fin 3 → ℝ := ![y0, y1, 0]
    let K := s.accelK norm
    let st1 := s.state + K.mulVec yv
    { s with state := normalizeFirst3 st1,
             accel_trust_factor := trust,
             P := (1 - K * Haccel) * s.P }

/-- The fixed heading measurement Jacobian H (lines 211-212). -/
def Hmag : Matrix (Fin 1) (Fin 6) ℝ :=
  Matrix.of ![![0, 0, 1, 0, 0, 0]]

/-- The effective heading measurement covariance used in the gain: R_mag
scaled by one over max(0.1, the heading trust factor) (lines 215-216). -/
def EKFState.magR (s : EKFState) : Matrix (Fin 1) (Fin 1) ℝ :=
  (1 / max 0.1 s.mag_trust_factor) • s.R_mag

/-- The heading innovation covariance (line 219). -/
def EKFState.magS (s : EKFState) : Matrix (Fin 1) (Fin 1) ℝ :=
  Hmag * s.P * Hmag.transpose + s.magR

/-- The heading Kalman gain (line 220). -/
def EKFState.magK (s : EKFState) : Matrix (Fin 6) (Fin 1) ℝ :=
  s.P * Hmag.transpose * s.magS⁻¹

/-- ExtendedKalmanFilter.update_magnetometer (lines 190-232): one yaw
measurement in degrees, corrected through the Kalman gain, with the same
normalization and covariance update pattern as the accel update. -/
def EKFState.update_magnetometer (s : EKFState) (mag_angle : ℝ) : EKFState :=
  let measured_yaw := normalize_angle (radiansOf mag_angle)
  let y0 := normalize_angle (measured_yaw - s.state 2)
  let yv : Fin 1 → ℝ := ![y0]
  let K := s.magK
  let st1 := s.state + K.mulVec yv
  { s with state := normalizeFirst3 st1,
           P := (1 - K * Hmag) * s.P }

/-- ExtendedKalmanFilter.set_mag_trust (lines 312-319): clamp into 0 to 1. -/
def EKFState.set_mag_trust (s : EKFState) (trust_factor : ℝ) : EKFState :=
  { s with mag_trust_factor := max 0.0 (min 1.0 trust_factor) }

/-- ExtendedKalmanFilter.set_process_noise (lines 321-331): write the level
into the attitude block of Q and a thousandth of it into the bias block.
The source performs no clamping of the level. -/
def EKFState.set_process_noise (s : EKFState) (noise_level : ℝ) : EKFState :=
  { s with Q := Matrix.of fun i j =>
      if (i : ℕ) < 3 ∧ (j : ℕ) < 3 then (if i = j then noise_level else 0)
      else if 3 ≤ (i : ℕ) ∧ 3 ≤ (j : ℕ) then (if i = j then noise_level * 0.001 else 0)
      else s.Q i j }

/-- State of AdaptiveEKFAttitudeEstimator (kalman_filter.py lines 366-380):
the wrapped EKF and the trailing accelerometer-magnitude history. -/
structure AdaptiveState where
  ekf : EKFState
  accelHistory : List ℝ
  adUpdateCount : ℕ

/-- The numpy population mean of a list. -/
def listMean (l : List ℝ) : ℝ := l.sum / l.length

/-- The numpy population standard deviation (np.std with ddof 0). -/
def listStd (l : List ℝ) : ℝ :=
  Real.sqrt (((l.map fun x => (x - listMean l) ^ 2).sum) / l.length)

/-- AdaptiveEKFAttitudeEstimator._adapt_process_noise (lines 417-439):
append the accelerometer magnitude, drop the oldest sample when the window
exceeds ten entries, and once at least three samples are buffered choose the
process-noise level from the standard deviation of the window. -/
def AdaptiveState.adaptProcessNoise (s : AdaptiveState) (ax ay az : ℝ) : AdaptiveState :=
  let accel_mag := Real.sqrt (ax ^ 2 + ay ^ 2 + az ^ 2)
  let hist1 := s.accelHistory ++ [accel_mag]
  let hist := if 10 < hist1.length then hist1.drop 1 else hist1
  if 3 ≤ hist.length then
    let accel_std := listStd hist
    let noise_level :=
      if 0.3 < accel_std then 0.05 else if 0.1 < accel_std then 0.02 else 0.01
    { s with ekf := s.ekf.set_process_noise noise_level, accelHistory := hist }
  else
    { s with accelHistory := hist }

/-- AdaptiveEKFAttitudeEstimator.update (lines 382-415): predict, accel
update, optional heading update, then the adaptive process-noise step. -/
def AdaptiveState.update (s : AdaptiveState)
    (accelX accelY accelZ gyroX gyroY gyroZ : ℝ)
    (magAngle : Option ℝ) (magValid : Bool) (dt : ℝ) : AdaptiveState :=
  let e1 := s.ekf.predict gyroX gyroY gyroZ dt
  let e2 := e1.update_accel accelX accelY accelZ
  let e3 := match magValid, magAngle with
    | true, some m => e2.update_magnetometer m
    | _, _ => e2
  let s1 := { s with ekf := e3 }
  let s2 := s1.adaptProcessNoise accelX accelY accelZ
  { s2 with adUpdateCount := s2.adUpdateCount + 1 }

/-! Theorems. -/

/-- Clamping from below at lo and then above at hi agrees with the opposite
order when lo is at most hi. -/
theorem clamp_comm (lo hi x : ℝ) (h : lo ≤ hi) :
    max lo (min hi x) = min hi (max lo x) := by
  rcases le_total x lo with hx | hx <;> rcases le_total x hi with hy | hy <;>
    simp [max_def, min_def] <;> split_ifs <;> linarith

/-- C5: calling update_accel with an accelerometer vector of norm below 0.1
is a complete no-op: the whole filter state, P included, is returned
unchanged. -/
theorem C5_update_accel_noop (s : EKFState) (ax ay az : ℝ)
    (h : Real.sqrt (ax ^ 2 + ay ^ 2 + az ^ 2) < 0.1) :
    s.update_accel ax ay az = s := by
  simp only [EKFState.update_accel, if_pos h]

/-- Witness for C5 at the zero accelerometer vector. -/
theorem C5_witness :
    (ekfInit 0.01 0.1 0.01 0.05).update_accel 0 0 0 = ekfInit 0.01 0.1 0.01 0.05 :=
  C5_update_accel_noop _ 0 0 0 (by
    rw [show ((0:ℝ) ^ 2 + 0 ^ 2 + 0 ^ 2) = 0 by norm_num, Real.sqrt_zero]
    norm_num)

/-- C6 counterexample: set_process_noise performs no clamping.  At noise
level 2 the attitude-block diagonal entry of Q becomes 2, while the value
clamped into the documented range 0.001 to 1.0 would be 1. -/
theorem C6_counterexample :
    ((ekfInit 0.01 0.1 0.01 0.05).set_process_noise 2).Q 0 0 = 2 ∧
    (2 : ℝ) ≠ max 0.001 (min 1.0 2) := by
  constructor
  · simp [EKFState.set_process_noise]
  · norm_num

/-- C6 amended: set_mag_trust clamps its factor into the interval 0 to 1 and
set_beta clamps beta into 0.01 to 0.5, but set_process_noise performs no
clamping at all: it writes the given level directly into the attitude block
of Q and a thousandth of it into the bias block, zeroing the off-diagonal
entries of both blocks. -/
theorem C6_setters (s : EKFState) (m : MadgwickState) (t b lvl : ℝ) :
    (s.set_mag_trust t).mag_trust_factor = max 0 (min 1 t) ∧
    (m.set_beta b).beta = max 0.01 (min 0.5 b) ∧
    (s.set_process_noise lvl).Q 0 0 = lvl ∧
    (s.set_process_noise lvl).Q 1 1 = lvl ∧
    (s.set_process_noise lvl).Q 2 2 = lvl ∧
    (s.set_process_noise lvl).Q 3 3 = lvl * 0.001 ∧
    (s.set_process_noise lvl).Q 4 4 = lvl * 0.001 ∧
    (s.set_process_noise lvl).Q 5 5 = lvl * 0.001 ∧
    (s.set_process_noise lvl).Q 0 1 = 0 := by
  refine ⟨?_, ?_, ?_, ?_, ?_, ?_, ?_, ?_, ?_⟩ <;>
    simp [EKFState.set_mag_trust, MadgwickState.set_beta, EKFState.set_process_noise] <;>
    norm_num [show ((3 : Fin 6) : ℕ) = 3 from rfl, show ((4 : Fin 6) : ℕ) = 4 from rfl,
      show ((5 : Fin 6) : ℕ) = 5 from rfl]

/-- C10: constructing AttitudeCalculator from alpha yields the Madgwick gain
min(0.3, max(0.033, 2 (1 - alpha))), and its update returns exactly the
Euler-angle triple of the underlying Madgwick update on the same state and
inputs, storing the triple in the roll, pitch and yaw attributes. -/
theorem C10_attitude_calculator (alpha ax ay az gx gy gz dt : ℝ)
    (s : AttitudeCalcState) :
    (attitudeCalcInit alpha).mad.beta = min 0.3 (max 0.033 (2 * (1 - alpha))) ∧
    (s.update ax ay az gx gy gz dt).2 =
      (s.mad.update ax ay az gx gy gz dt).get_euler_angles ∧
    (s.update ax ay az gx gy gz dt).1.mad = s.mad.update ax ay az gx gy gz dt ∧
    (s.update ax ay az gx gy gz dt).1.roll = (s.update ax ay az gx gy gz dt).2.1 ∧
    (s.update ax ay az gx gy gz dt).1.pitch = (s.update ax ay az gx gy gz dt).2.2.1 ∧
    (s.update ax ay az gx gy gz dt).1.yaw = (s.update ax ay az gx gy gz dt).2.2.2 := by
  refine ⟨?_, rfl, rfl, rfl, rfl, rfl⟩
  show max 0.033 (min 0.3 ((1 - alpha) * 2.0)) = min 0.3 (max 0.033 (2 * (1 - alpha)))
  rw [show ((1 - alpha) * 2.0) = 2 * (1 - alpha) by ring,
      clamp_comm 0.033 0.3 (2 * (1 - alpha)) (by norm_num)]

/-- C4: for accelerometer norm at least 0.1, update_accel sets the trust
factor exactly by the deviation bands of the norm from 1, the effective
measurement covariance entering the gain is R_accel scaled by one over
max(0.1, trust), the covariance is updated through the corresponding gain,
and the three concrete magnitudes 1.0, 1.6 and 1.3 map to trusts 1.0, 0.3
and 0.7. -/
theorem C4_accel_trust (s : EKFState) (ax ay az : ℝ)
    (h : ¬ Real.sqrt (ax ^ 2 + ay ^ 2 + az ^ 2) < 0.1) :
    ((s.update_accel ax ay az).accel_trust_factor =
      (if 0.5 < |Real.sqrt (ax ^ 2 + ay ^ 2 + az ^ 2) - 1| then 0.3
       else if 0.2 < |Real.sqrt (ax ^ 2 + ay ^ 2 + az ^ 2) - 1| then 0.7 else 1.0)) ∧
    (∀ n : ℝ, s.accelR n = (1 / max 0.1 (accelTrust n)) • s.R_accel) ∧
    ((s.update_accel ax ay az).P =
      (1 - s.accelK (Real.sqrt (ax ^ 2 + ay ^ 2 + az ^ 2)) * Haccel) * s.P) ∧
    accelTrust 1 = 1.0 ∧ accelTrust 1.6 = 0.3 ∧ accelTrust 1.3 = 0.7 := by
  refine ⟨?_, fun n => rfl, ?_, ?_, ?_, ?_⟩
  · simp only [EKFState.update_accel, if_neg h, accelTrust]
    norm_num
  · simp only [EKFState.update_accel, if_neg h]
  · simp only [accelTrust]
    norm_num
  · have h6 : |(1.6 : ℝ) - 1.0| = 0.6 := by
      rw [show (1.6 : ℝ) - 1.0 = 0.6 by norm_num, abs_of_pos] <;> norm_num
    simp only [accelTrust, h6]
    norm_num
  · have h3 : |(1.3 : ℝ) - 1.0| = 0.3 := by
      rw [show (1.3 : ℝ) - 1.0 = 0.3 by norm_num, abs_of_pos] <;> norm_num
    simp only [accelTrust, h3]
    norm_num

/-- Witness for C4 at the gravity-aligned unit accelerometer vector. -/
theorem C4_witness :
    (((ekfInit 0.01 0.1 0.01 0.05).update_accel 0 0 1).accel_trust_factor =
      (if 0.5 < |Real.sqrt ((0:ℝ) ^ 2 + 0 ^ 2 + 1 ^ 2) - 1| then 0.3
       else if 0.2 < |Real.sqrt ((0:ℝ) ^ 2 + 0 ^ 2 + 1 ^ 2) - 1| then 0.7 else 1.0)) ∧
    (∀ n : ℝ, (ekfInit 0.01 0.1 0.01 0.05).accelR n =
      (1 / max 0.1 (accelTrust n)) • (ekfInit 0.01 0.1 0.01 0.05).R_accel) ∧
    (((ekfInit 0.01 0.1 0.01 0.05).update_accel 0 0 1).P =
      (1 - (ekfInit 0.01 0.1 0.01 0.05).accelK
        (Real.sqrt ((0:ℝ) ^ 2 + 0 ^ 2 + 1 ^ 2)) * Haccel) * (ekfInit 0.01 0.1 0.01 0.05).P) ∧
    accelTrust 1 = 1.0 ∧ accelTrust 1.6 = 0.3 ∧ accelTrust 1.3 = 0.7 :=
  C4_accel_trust (ekfInit 0.01 0.1 0.01 0.05) 0 0 1 (by
    rw [show ((0:ℝ) ^ 2 + 0 ^ 2 + 1 ^ 2) = 1 by norm_num, Real.sqrt_one]
    norm_num)

/-- C9: the adaptive process-noise step keeps a trailing window of at most
ten accelerometer magnitudes; with fewer than three buffered samples the
wrapped EKF (its process noise included) is left unchanged, and once at
least three samples are buffered the EKF process noise is recomputed from
the window standard deviation bands 0.3 and 0.1 with levels 0.05, 0.02
and 0.01. -/
theorem C9_adapt_process_noise (s : AdaptiveState) (ax ay az : ℝ)
    (hlen : s.accelHistory.length ≤ 10) :
    ((s.adaptProcessNoise ax ay az).accelHistory.length ≤ 10) ∧
    ((s.adaptProcessNoise ax ay az).accelHistory.length < 3 →
      (s.adaptProcessNoise ax ay az).ekf = s.ekf) ∧
    (3 ≤ (s.adaptProcessNoise ax ay az).accelHistory.length →
      (s.adaptProcessNoise ax ay az).ekf = s.ekf.set_process_noise
        (if 0.3 < listStd (s.adaptProcessNoise ax ay az).accelHistory then 0.05
         else if 0.1 < listStd (s.adaptProcessNoise ax ay az).accelHistory then 0.02
         else 0.01)) := by
  simp only [AdaptiveState.adaptProcessNoise]
  set m := Real.sqrt (ax ^ 2 + ay ^ 2 + az ^ 2) with hm
  set hist := if 10 < (s.accelHistory ++ [m]).length then (s.accelHistory ++ [m]).drop 1
    else s.accelHistory ++ [m] with hhist
  have hlen10 : hist.length ≤ 10 := by
    rw [hhist]
    split_ifs with hgt
    · simp only [List.length_drop, List.length_append, List.length_singleton]
      omega
    · simp only [List.length_append, List.length_singleton] at hgt ⊢
      omega
  by_cases h3 : 3 ≤ hist.length
  · simp only [if_pos h3]
    exact ⟨hlen10, fun hlt => absurd h3 (by omega), fun _ => by trivial⟩
  · simp only [if_neg h3]
    exact ⟨hlen10, fun _ => by trivial, fun hge => absurd hge h3⟩

/-- Witness for C9 starting from an empty history window. -/
theorem C9_witness :
    (((⟨ekfInit 0.01 0.1 0.01 0.05, [], 0⟩ : AdaptiveState).adaptProcessNoise
        1 0 0).accelHistory.length ≤ 10) ∧
    (((⟨ekfInit 0.01 0.1 0.01 0.05, [], 0⟩ : AdaptiveState).adaptProcessNoise
        1 0 0).accelHistory.length < 3 →
      ((⟨ekfInit 0.01 0.1 0.01 0.05, [], 0⟩ : AdaptiveState).adaptProcessNoise 1 0 0).ekf =
        ekfInit 0.01 0.1 0.01 0.05) ∧
    (3 ≤ ((⟨ekfInit 0.01 0.1 0.01 0.05, [], 0⟩ : AdaptiveState).adaptProcessNoise
        1 0 0).accelHistory.length →
      ((⟨ekfInit 0.01 0.1 0.01 0.05, [], 0⟩ : AdaptiveState).adaptProcessNoise 1 0 0).ekf =
        (ekfInit 0.01 0.1 0.01 0.05).set_process_noise
        (if 0.3 < listStd ((⟨ekfInit 0.01 0.1 0.01 0.05, [], 0⟩ : AdaptiveState).adaptProcessNoise
            1 0 0).accelHistory then 0.05
         else if 0.1 < listStd ((⟨ekfInit 0.01 0.1 0.01 0.05, [], 0⟩ :
            AdaptiveState).adaptProcessNoise 1 0 0).accelHistory then 0.02
         else 0.01)) :=
  C9_adapt_process_noise ⟨ekfInit 0.01 0.1 0.01 0.05, [], 0⟩ 1 0 0 (by simp)

/-- The subtracting loop never returns a value above pi. -/
theorem wrapDown_le (a : ℝ) : wrapDown a ≤ Real.pi := by
  induction a using wrapDown.induct with
  | case1 a h ih =>
    rw [wrapDown, dif_pos h]
    exact ih
  | case2 a h =>
    rw [wrapDown, dif_neg h]
    exact le_of_not_lt h

/-- The adding loop never returns a value below minus pi. -/
theorem wrapUp_ge (a : ℝ) : -Real.pi ≤ wrapUp a := by
  induction a using wrapUp.induct with
  | case1 a h ih =>
    rw [wrapUp, dif_pos h]
    exact ih
  | case2 a h =>
    rw [wrapUp, dif_neg h]
    exact le_of_not_lt h

/-- The adding loop preserves the upper bound pi. -/
theorem wrapUp_le (a : ℝ) : a ≤ Real.pi → wrapUp a ≤ Real.pi := by
  induction a using wrapUp.induct with
  | case1 a h ih =>
    intro _
    rw [wrapUp, dif_pos h]
    exact ih (by have := Real.pi_pos; linarith)
  | case2 a h =>
    intro ha
    rw [wrapUp, dif_neg h]
    exact ha

/-- C7 counterexample: on input minus pi the normalization routine returns
exactly minus pi, which is not strictly greater than minus pi; the claimed
half-open interval excludes a value the routine attains. -/
theorem C7_counterexample :
    normalize_angle (-Real.pi) = -Real.pi ∧
    ¬ (-Real.pi < normalize_angle (-Real.pi)) := by
  have h1 : wrapDown (-Real.pi) = -Real.pi := by
    rw [wrapDown, dif_neg (by have := Real.pi_pos; linarith)]
  have h2 : wrapUp (-Real.pi) = -Real.pi := by
    rw [wrapUp, dif_neg (lt_irrefl _)]
  refine ⟨?_, ?_⟩
  · rw [normalize_angle, h1, h2]
  · rw [normalize_angle, h1, h2]
    exact lt_irrefl _

/-- C7 amended: for every real input the normalization routine terminates
(the embedded function is total, by well-founded recursion on the number of
remaining loop iterations) and returns a value in the closed interval from
minus pi to pi.  The lower endpoint is attained, so the interval is closed
rather than half-open as claimed. -/
theorem C7_normalize_range (a : ℝ) :
    -Real.pi ≤ normalize_angle a ∧ normalize_angle a ≤ Real.pi :=
  ⟨wrapUp_ge _, wrapUp_le _ (wrapDown_le a)⟩

/-- With a zero accelerometer vector the update dispatches to the gyro-only
path (quaternion.py lines 70-72). -/
theorem madgwick_update_zero_accel (s : MadgwickState) (gx gy gz dt : ℝ) :
    s.update 0 0 0 gx gy gz dt =
      s.updateGyroOnly (radiansOf gx) (radiansOf gy) (radiansOf gz) dt := by
  simp [MadgwickState.update]

/-- With a nonzero accelerometer norm the update is the renormalized
gradient-corrected step (quaternion.py lines 74-130). -/
theorem madgwick_update_accel_path (s : MadgwickState) (ax ay az gx gy gz dt : ℝ)
    (h : Real.sqrt (ax * ax + ay * ay + az * az) ≠ 0) :
    s.update ax ay az gx gy gz dt =
      { s with
          q := qdivNorm (s.corrected ax ay az (radiansOf gx) (radiansOf gy) (radiansOf gz) dt),
          updateCount := s.updateCount + 1 } := by
  simp only [MadgwickState.update, if_neg h]

/-- First concrete gyro-only step used against the norm invariant: from the
reset state, one second at a rate of 270 over pi degrees per second lands on
the rational quaternion (4/5, 3/5, 0, 0). -/
theorem mad_step1 :
    (madgwickInit 0.1 10).update 0 0 0 (270 / Real.pi) 0 0 1 =
      ⟨0.1, 1 / 10, ⟨4 / 5, 3 / 5, 0, 0⟩, 0⟩ := by
  rw [madgwick_update_zero_accel]
  have hrad : radiansOf (270 / Real.pi) = 3 / 2 := by
    rw [radiansOf]
    field_simp
    ring
  have hrad0 : radiansOf 0 = 0 := by simp [radiansOf]
  rw [hrad, hrad0]
  have hv : (madgwickInit 0.1 10).gyroIntegrated (3 / 2) 0 0 1 = ⟨1, 3 / 4, 0, 0⟩ := by
    simp only [MadgwickState.gyroIntegrated, madgwickInit]
    norm_num [Quat.mk.injEq]
  have hn : qnorm ⟨1, 3 / 4, 0, 0⟩ = 5 / 4 := by
    rw [qnorm]
    rw [show ((1:ℝ) * 1 + 3 / 4 * (3 / 4) + 0 * 0 + 0 * 0) = (5 / 4) ^ 2 by norm_num,
        Real.sqrt_sq (by norm_num)]
  rw [MadgwickState.updateGyroOnly, hv]
  rw [show qdivNorm ⟨1, 3 / 4, 0, 0⟩ = ⟨4 / 5, 3 / 5, 0, 0⟩ by
    rw [qdivNorm, hn]; norm_num [Quat.mk.injEq]]
  simp [madgwickInit]

/-- Second concrete gyro-only step: one second at 480 over pi degrees per
second lands exactly on the quaternion (0, 1, 0, 0). -/
theorem mad_step2 :
    (⟨0.1, 1 / 10, ⟨4 / 5, 3 / 5, 0, 0⟩, 0⟩ : MadgwickState).update 0 0 0
        (480 / Real.pi) 0 0 1 =
      ⟨0.1, 1 / 10, ⟨0, 1, 0, 0⟩, 0⟩ := by
  rw [madgwick_update_zero_accel]
  have hrad : radiansOf (480 / Real.pi) = 8 / 3 := by
    rw [radiansOf]
    field_simp
    ring
  have hrad0 : radiansOf 0 = 0 := by simp [radiansOf]
  rw [hrad, hrad0]
  have hv : (⟨0.1, 1 / 10, ⟨4 / 5, 3 / 5, 0, 0⟩, 0⟩ : MadgwickState).gyroIntegrated
      (8 / 3) 0 0 1 = ⟨0, 5 / 3, 0, 0⟩ := by
    simp only [MadgwickState.gyroIntegrated]
    norm_num [Quat.mk.injEq]
  have hn : qnorm ⟨0, 5 / 3, 0, 0⟩ = 5 / 3 := by
    rw [qnorm]
    rw [show ((0:ℝ) * 0 + 5 / 3 * (5 / 3) + 0 * 0 + 0 * 0) = (5 / 3) ^ 2 by norm_num,
        Real.sqrt_sq (by norm_num)]
  rw [MadgwickState.updateGyroOnly, hv]
  rw [show qdivNorm ⟨0, 5 / 3, 0, 0⟩ = ⟨0, 1, 0, 0⟩ by
    rw [qdivNorm, hn]; norm_num [Quat.mk.injEq]]

/-- Third concrete step, on the accelerometer path: from the unit quaternion
(0, 1, 0, 0) with gain 0.1, gravity-aligned accel (0, 0, 1), zero gyro and
dt = 10, the corrected quaternion before renormalization is exactly zero. -/
theorem mad_corrected_zero (sp : ℝ) (n : ℕ) :
    (⟨0.1, sp, ⟨0, 1, 0, 0⟩, n⟩ : MadgwickState).corrected 0 0 1 0 0 0 10 =
      ⟨0, 0, 0, 0⟩ := by
  have h64 : Real.sqrt 64 = 8 := by
    rw [show (64:ℝ) = 8 ^ 2 by norm_num, Real.sqrt_sq (by norm_num)]
  simp only [MadgwickState.corrected]
  rw [show ((0:ℝ) * 0 + 0 * 0 + 1 * 1) = 1 by norm_num, Real.sqrt_one]
  norm_num [h64, Quat.mk.injEq]

/-- The renormalization of the zero quaternion divides by a zero norm and
yields the zero quaternion in exact arithmetic (NaN components in floats). -/
theorem qdivNorm_zero : qdivNorm ⟨0, 0, 0, 0⟩ = ⟨0, 0, 0, 0⟩ := by
  rw [qdivNorm]
  norm_num [Quat.mk.injEq]

/-- Third concrete step assembled: the stored quaternion collapses to zero. -/
theorem mad_step3 (sp : ℝ) (n : ℕ) :
    (⟨0.1, sp, ⟨0, 1, 0, 0⟩, n⟩ : MadgwickState).update 0 0 1 0 0 0 10 =
      ⟨0.1, sp, ⟨0, 0, 0, 0⟩, n + 1⟩ := by
  rw [madgwick_update_accel_path _ _ _ _ _ _ _ _ (by
    rw [show ((0:ℝ) * 0 + 0 * 0 + 1 * 1) = 1 by norm_num, Real.sqrt_one]
    norm_num)]
  rw [show radiansOf 0 = 0 by simp [radiansOf]]
  rw [mad_corrected_zero, qdivNorm_zero]

/-- C1 counterexample: there is a state and a finite input on which the
post-correction quaternion has norm exactly zero, and the stored quaternion
is then not left unchanged: in exact real arithmetic it becomes the zero
quaternion (the unguarded division at quaternion.py lines 124-128; in IEEE
floats the same division yields NaN components). -/
theorem C1_counterexample :
    qnorm ((⟨0.1, 1 / 10, ⟨0, 1, 0, 0⟩, 0⟩ : MadgwickState).corrected 0 0 1 0 0 0 10) = 0 ∧
    ((⟨0.1, 1 / 10, ⟨0, 1, 0, 0⟩, 0⟩ : MadgwickState).update 0 0 1 0 0 0 10).q =
      ⟨0, 0, 0, 0⟩ ∧
    ((⟨0.1, 1 / 10, ⟨0, 1, 0, 0⟩, 0⟩ : MadgwickState).update 0 0 1 0 0 0 10).q ≠
      (⟨0.1, 1 / 10, ⟨0, 1, 0, 0⟩, 0⟩ : MadgwickState).q := by
  refine ⟨?_, ?_, ?_⟩
  · rw [mad_corrected_zero]
    simp [qnorm]
  · rw [mad_step3]
  · rw [mad_step3]
    simp [Quat.mk.injEq]

/-- C1 amended: on the accelerometer path the stored quaternion is always
the componentwise quotient of the corrected quaternion by its norm, with no
zero-norm branch; in particular, when that norm is zero the quaternion
becomes the zero quaternion of the real embedding (NaN in floats) rather
than being left unchanged. -/
theorem C1_renormalization_unguarded (s : MadgwickState) (ax ay az gx gy gz dt : ℝ)
    (h : Real.sqrt (ax * ax + ay * ay + az * az) ≠ 0) :
    (s.update ax ay az gx gy gz dt).q =
      qdivNorm (s.corrected ax ay az (radiansOf gx) (radiansOf gy) (radiansOf gz) dt) ∧
    (qnorm (s.corrected ax ay az (radiansOf gx) (radiansOf gy) (radiansOf gz) dt) = 0 →
      (s.update ax ay az gx gy gz dt).q = ⟨0, 0, 0, 0⟩) := by
  constructor
  · rw [madgwick_update_accel_path _ _ _ _ _ _ _ _ h]
  · intro hz
    rw [madgwick_update_accel_path _ _ _ _ _ _ _ _ h]
    show qdivNorm _ = _
    rw [qdivNorm, hz]
    norm_num [Quat.mk.injEq]

/-- Witness for C1 at a nonzero accelerometer input. -/
theorem C1_witness :
    ((madgwickInit 0.1 10).update 0 0 1 0 0 0 0.1).q =
      qdivNorm ((madgwickInit 0.1 10).corrected 0 0 1 (radiansOf 0) (radiansOf 0)
        (radiansOf 0) 0.1) ∧
    (qnorm ((madgwickInit 0.1 10).corrected 0 0 1 (radiansOf 0) (radiansOf 0)
        (radiansOf 0) 0.1) = 0 →
      ((madgwickInit 0.1 10).update 0 0 1 0 0 0 0.1).q = ⟨0, 0, 0, 0⟩) :=
  C1_renormalization_unguarded (madgwickInit 0.1 10) 0 0 1 0 0 0 0.1 (by
    rw [show ((0:ℝ) * 0 + 0 * 0 + 1 * 1) = 1 by norm_num, Real.sqrt_one]
    norm_num)

/-- Dividing a quaternion by its own norm yields a unit quaternion unless
the quaternion collapses to exactly zero. -/
theorem qdivNorm_unit_or_zero (v : Quat) :
    qnorm (qdivNorm v) = 1 ∨ qdivNorm v = ⟨0, 0, 0, 0⟩ := by
  by_cases hz : qnorm v = 0
  · right
    rw [qdivNorm, hz]
    norm_num [Quat.mk.injEq]
  · left
    have hS : 0 ≤ v.w * v.w + v.x * v.x + v.y * v.y + v.z * v.z := by
      nlinarith [mul_self_nonneg v.w, mul_self_nonneg v.x, mul_self_nonneg v.y,
        mul_self_nonneg v.z]
    have hmul : qnorm v * qnorm v = v.w * v.w + v.x * v.x + v.y * v.y + v.z * v.z :=
      Real.mul_self_sqrt hS
    have hne : qnorm v ≠ 0 := hz
    rw [qdivNorm, qnorm]
    have harg : v.w / qnorm v * (v.w / qnorm v) + v.x / qnorm v * (v.x / qnorm v) +
        v.y / qnorm v * (v.y / qnorm v) + v.z / qnorm v * (v.z / qnorm v) = 1 := by
      field_simp
      linear_combination hmul.symm
    rw [harg, Real.sqrt_one]

/-- C3 amended: after every single update call, on either path, the stored
quaternion has norm exactly one unless the pre-normalization quaternion had
norm zero, in which case the stored quaternion is exactly the zero
quaternion of the real embedding (NaN in floats); the zero case is reachable
from the reset state by finite inputs. -/
theorem C3_unit_norm_or_collapse (s : MadgwickState) (ax ay az gx gy gz dt : ℝ) :
    qnorm (s.update ax ay az gx gy gz dt).q = 1 ∨
    (s.update ax ay az gx gy gz dt).q = ⟨0, 0, 0, 0⟩ := by
  by_cases h : Real.sqrt (ax * ax + ay * ay + az * az) = 0
  · simp only [MadgwickState.update, if_pos h, MadgwickState.updateGyroOnly]
    exact qdivNorm_unit_or_zero _
  · rw [madgwick_update_accel_path _ _ _ _ _ _ _ _ h]
    exact qdivNorm_unit_or_zero _

/-- C3 counterexample: three update calls with finite inputs from the reset
state (gain 0.1) drive the stored quaternion to exact norm zero, far outside
the claimed 1e-6 band around one. -/
theorem C3_counterexample :
    qnorm ((((madgwickInit 0.1 10).update 0 0 0 (270 / Real.pi) 0 0 1).update 0 0 0
        (480 / Real.pi) 0 0 1).update 0 0 1 0 0 0 10).q = 0 ∧
    ¬ |qnorm ((((madgwickInit 0.1 10).update 0 0 0 (270 / Real.pi) 0 0 1).update 0 0 0
        (480 / Real.pi) 0 0 1).update 0 0 1 0 0 0 10).q - 1| ≤ 1 / 1000000 := by
  have hq : qnorm ((((madgwickInit 0.1 10).update 0 0 0 (270 / Real.pi) 0 0 1).update 0 0 0
      (480 / Real.pi) 0 0 1).update 0 0 1 0 0 0 10).q = 0 := by
    rw [mad_step1, mad_step2, mad_step3]
    simp [qnorm]
  refine ⟨hq, ?_⟩
  rw [hq, show (0:ℝ) - 1 = -1 by norm_num, abs_neg, abs_one]
  norm_num

/-- Over the reals the conjugate transpose is the transpose. -/
theorem conjT_eq_T {m n : Type*} (A : Matrix m n ℝ) : Aᴴ = Aᵀ :=
  Matrix.conjTranspose_eq_transpose_of_trivial A

/-- Congruence by any matrix preserves positive semidefiniteness. -/
theorem posSemidef_conj {m n : Type*} [Fintype m] [Fintype n]
    (P : Matrix n n ℝ) (hP : P.PosSemidef) (A : Matrix m n ℝ) :
    (A * P * Aᵀ).PosSemidef := by
  have h := hP.mul_mul_conjTranspose_same A
  rwa [conjT_eq_T] at h

/-- Scaling by a nonnegative real preserves positive semidefiniteness. -/
theorem posSemidef_smul {n : Type*} [Fintype n] (M : Matrix n n ℝ) (hM : M.PosSemidef)
    (c : ℝ) (hc : 0 ≤ c) : (c • M).PosSemidef := by
  constructor
  · have h1 := hM.1
    rw [Matrix.IsHermitian, Matrix.conjTranspose_smul, h1]
    simp
  · intro x
    have h2 := hM.2 x
    rw [Matrix.smul_mulVec_assoc, dotProduct_smul, smul_eq_mul]
    exact mul_nonneg hc h2

/-- The covariance update P to (I - K H) P with the gain K = P Ht S inverse,
S = H P Ht + R, preserves positive semidefiniteness when S is invertible:
the update equals the Joseph form (I - K H) P (I - K H)t + K R Kt, a sum of
two congruences. -/
theorem kalman_gain_psd {n m : Type*} [Fintype n] [Fintype m] [DecidableEq n]
    [DecidableEq m] (P : Matrix n n ℝ) (H : Matrix m n ℝ) (R : Matrix m m ℝ)
    (hP : P.PosSemidef) (hR : R.PosSemidef)
    (hS : IsUnit (H * P * Hᵀ + R).det) :
    ((1 - (P * Hᵀ * (H * P * Hᵀ + R)⁻¹) * H) * P).PosSemidef := by
  set S := H * P * Hᵀ + R with hSdef
  set K := P * Hᵀ * S⁻¹ with hKdef
  have hPt : Pᵀ = P := by
    have h : Pᴴ = P := hP.1
    rwa [conjT_eq_T] at h
  have hRt : Rᵀ = R := by
    have h : Rᴴ = R := hR.1
    rwa [conjT_eq_T] at h
  have hSt : Sᵀ = S := by
    rw [hSdef, Matrix.transpose_add, Matrix.transpose_mul, Matrix.transpose_mul,
        Matrix.transpose_transpose, hPt, hRt, Matrix.mul_assoc]
  have hKS : K * S = P * Hᵀ := by
    rw [hKdef, Matrix.mul_assoc, Matrix.nonsing_inv_mul S hS, Matrix.mul_one]
  have h1 : (1 - K * H) * (P * Hᵀ) = K * R := by
    have hR' : R = S - H * P * Hᵀ := by
      rw [hSdef]
      exact (add_sub_cancel_left _ _).symm
    calc (1 - K * H) * (P * Hᵀ)
        = P * Hᵀ - K * (H * P * Hᵀ) := by
          rw [Matrix.sub_mul, Matrix.one_mul]
          simp only [Matrix.mul_assoc]
      _ = K * S - K * (H * P * Hᵀ) := by rw [hKS]
      _ = K * (S - H * P * Hᵀ) := by rw [Matrix.mul_sub]
      _ = K * R := by rw [← hR']
  have h2 : (1 - K * H)ᵀ = 1 - Hᵀ * Kᵀ := by
    rw [Matrix.transpose_sub, Matrix.transpose_one, Matrix.transpose_mul]
  have key : (1 - K * H) * P = (1 - K * H) * P * (1 - K * H)ᵀ + K * R * Kᵀ := by
    rw [h2, Matrix.mul_sub, Matrix.mul_one]
    have h3 : (1 - K * H) * P * (Hᵀ * Kᵀ) = K * R * Kᵀ := by
      calc (1 - K * H) * P * (Hᵀ * Kᵀ)
          = (1 - K * H) * (P * Hᵀ) * Kᵀ := by simp only [Matrix.mul_assoc]
        _ = K * R * Kᵀ := by rw [h1]
    rw [h3]
    exact (sub_add_cancel _ _).symm
  rw [key]
  exact (posSemidef_conj P hP (1 - K * H)).add (posSemidef_conj R hR K)

/-- C2: in exact real arithmetic, whenever the covariance P is symmetric
positive semidefinite (with the process and measurement covariances
positive semidefinite as well, and the innovation covariances invertible as
the matrix inversions in the source require), P remains symmetric positive
semidefinite after predict, after update_accel and after
update_magnetometer. -/
theorem C2_covariance_psd (s : EKFState)
    (hP : s.P.PosSemidef) (hQ : s.Q.PosSemidef)
    (hRa : s.R_accel.PosSemidef) (hRm : s.R_mag.PosSemidef)
    (gx gy gz dt ax ay az mag : ℝ)
    (hSa : IsUnit (s.accelS (Real.sqrt (ax ^ 2 + ay ^ 2 + az ^ 2))).det)
    (hSm : IsUnit s.magS.det) :
    ((s.predict gx gy gz dt).P).PosSemidef ∧
    ((s.update_accel ax ay az).P).PosSemidef ∧
    ((s.update_magnetometer mag).P).PosSemidef := by
  have hscale : ∀ t : ℝ, (0:ℝ) ≤ 1 / max 0.1 t := by
    intro t
    have hpos : (0:ℝ) < max 0.1 t := lt_of_lt_of_le (by norm_num) (le_max_left _ _)
    exact le_of_lt (div_pos one_pos hpos)
  refine ⟨?_, ?_, ?_⟩
  · exact Matrix.PosSemidef.add (posSemidef_conj s.P hP _) hQ
  · by_cases hlt : Real.sqrt (ax ^ 2 + ay ^ 2 + az ^ 2) < 0.1
    · simp only [EKFState.update_accel, if_pos hlt]
      exact hP
    · have hpsd := kalman_gain_psd s.P Haccel
        (s.accelR (Real.sqrt (ax ^ 2 + ay ^ 2 + az ^ 2))) hP
        (posSemidef_smul _ hRa _ (hscale _)) hSa
      simp only [EKFState.update_accel, if_neg hlt]
      exact hpsd
  · exact kalman_gain_psd s.P Hmag s.magR hP (posSemidef_smul _ hRm _ (hscale _)) hSm

/-- Witness for C2 at the freshly constructed filter, gravity-aligned
accelerometer input and heading zero. -/
theorem C2_witness :
    (((ekfInit 0.01 0.1 0.01 0.05).predict 0 0 0 0.1).P).PosSemidef ∧
    (((ekfInit 0.01 0.1 0.01 0.05).update_accel 0 0 1).P).PosSemidef ∧
    (((ekfInit 0.01 0.1 0.01 0.05).update_magnetometer 0).P).PosSemidef := by
  have hP : (ekfInit 0.01 0.1 0.01 0.05).P.PosSemidef := Matrix.PosSemidef.one
  have hQ : (ekfInit 0.01 0.1 0.01 0.05).Q.PosSemidef := by
    apply Matrix.PosSemidef.diagonal
    intro i
    dsimp only
    split_ifs <;> norm_num
  have hRa : (ekfInit 0.01 0.1 0.01 0.05).R_accel.PosSemidef := by
    apply Matrix.PosSemidef.diagonal
    intro i
    norm_num
  have hRm : (ekfInit 0.01 0.1 0.01 0.05).R_mag.PosSemidef := by
    apply Matrix.PosSemidef.diagonal
    intro i
    norm_num
  have hn : Real.sqrt ((0:ℝ) ^ 2 + 0 ^ 2 + 1 ^ 2) = 1 := by
    rw [show ((0:ℝ) ^ 2 + 0 ^ 2 + 1 ^ 2) = 1 by norm_num, Real.sqrt_one]
  have htrust : accelTrust 1 = 1 := by
    simp only [accelTrust]
    norm_num
  have hmax : (1:ℝ) / max 0.1 1 = 1 := by
    rw [max_eq_right (by norm_num : (0.1:ℝ) ≤ 1)]
    norm_num
  have hSa_eq : (ekfInit 0.01 0.1 0.01 0.05).accelS 1 =
      Matrix.diagonal ![1.01, 1.01, 0.01] := by
    rw [EKFState.accelS, EKFState.accelR, htrust, hmax, one_smul]
    ext i j
    fin_cases i <;> fin_cases j <;>
      simp [ekfInit, Haccel, Matrix.mul_one, Matrix.mul_apply, Fin.sum_univ_six,
        Matrix.diagonal_apply, Matrix.transpose_apply, Matrix.vecHead, Matrix.vecTail,
        Function.comp] <;>
      norm_num
  have hSa : IsUnit ((ekfInit 0.01 0.1 0.01 0.05).accelS
      (Real.sqrt ((0:ℝ) ^ 2 + 0 ^ 2 + 1 ^ 2))).det := by
    rw [hn, hSa_eq, Matrix.det_diagonal]
    apply isUnit_iff_ne_zero.mpr
    rw [Fin.prod_univ_three]
    norm_num
  have hSm_eq : (ekfInit 0.01 0.1 0.01 0.05).magS = Matrix.diagonal ![1.0025] := by
    rw [EKFState.magS, EKFState.magR]
    have hm1 : (ekfInit 0.01 0.1 0.01 0.05).mag_trust_factor = 1 := by
      norm_num [ekfInit]
    rw [hm1, hmax, one_smul]
    ext i j
    fin_cases i <;> fin_cases j <;>
      simp [ekfInit, Hmag, Matrix.mul_one, Matrix.mul_apply, Fin.sum_univ_six,
        Matrix.diagonal_apply, Matrix.transpose_apply, Matrix.vecHead, Matrix.vecTail,
        Function.comp] <;>
      norm_num
  have hSm : IsUnit (ekfInit 0.01 0.1 0.01 0.05).magS.det := by
    rw [hSm_eq, Matrix.det_diagonal]
    apply isUnit_iff_ne_zero.mpr
    rw [Fin.prod_univ_one]
    norm_num
  exact C2_covariance_psd (ekfInit 0.01 0.1 0.01 0.05) hP hQ hRa hRm 0 0 0 0.1 0 0 1 0 hSa hSm

/-- Scaling both arguments of atan2 by a positive factor leaves its value
unchanged. -/
theorem atan2_mul_pos (y x k : ℝ) (hk : 0 < k) :
    atan2 (y * k) (x * k) = atan2 y x := by
  have hdiv : y * k / (x * k) = y / x := mul_div_mul_right y x (ne_of_gt hk)
  have h1 : (0 < x * k) = (0 < x) :=
    propext ⟨fun h => by nlinarith, fun h => mul_pos h hk⟩
  have h2 : (x * k < 0) = (x < 0) :=
    propext ⟨fun h => by nlinarith, fun h => mul_neg_of_neg_of_pos h hk⟩
  have h3 : (0 ≤ y * k) = (0 ≤ y) :=
    propext ⟨fun h => by nlinarith, fun h => mul_nonneg h hk.le⟩
  have h4 : (0 < y * k) = (0 < y) :=
    propext ⟨fun h => by nlinarith, fun h => mul_pos h hk⟩
  have h5 : (y * k < 0) = (y < 0) :=
    propext ⟨fun h => by nlinarith, fun h => mul_neg_of_neg_of_pos h hk⟩
  simp only [atan2, hdiv, h1, h2, h3, h4, h5]

/-- The atan2 of the sine and cosine of an angle in the interval from minus
pi exclusive to pi inclusive recovers the angle. -/
theorem atan2_sin_cos (θ : ℝ) (h1 : -Real.pi < θ) (h2 : θ ≤ Real.pi) :
    atan2 (Real.sin θ) (Real.cos θ) = θ := by
  have hpi := Real.pi_pos
  rcases lt_trichotomy θ (Real.pi / 2) with h3 | h3 | h3
  · rcases lt_trichotomy θ (-(Real.pi / 2)) with h4 | h4 | h4
    · have hcos : Real.cos θ < 0 := by
        have hc : Real.cos (-θ) < 0 :=
          Real.cos_neg_of_pi_div_two_lt_of_lt (by linarith) (by linarith)
        rwa [Real.cos_neg] at hc
      have hsin : Real.sin θ < 0 := by
        have hs : 0 < Real.sin (-θ) :=
          Real.sin_pos_of_pos_of_lt_pi (by linarith) (by linarith)
        rw [Real.sin_neg] at hs
        linarith
      simp only [atan2]
      rw [if_neg (not_lt.mpr hcos.le), if_pos hcos, if_neg (not_le.mpr hsin),
          ← Real.tan_eq_sin_div_cos]
      have hper : Real.tan (θ + Real.pi) = Real.tan θ := Real.tan_periodic θ
      rw [← hper, Real.arctan_tan (by linarith) (by linarith)]
      ring
    · rw [h4]
      simp only [atan2]
      rw [Real.cos_neg, Real.cos_pi_div_two, Real.sin_neg, Real.sin_pi_div_two]
      rw [if_neg (lt_irrefl 0), if_neg (lt_irrefl 0), if_neg (by norm_num),
          if_pos (by norm_num)]
    · have hcos : 0 < Real.cos θ := Real.cos_pos_of_mem_Ioo ⟨h4, h3⟩
      simp only [atan2]
      rw [if_pos hcos, ← Real.tan_eq_sin_div_cos, Real.arctan_tan h4 h3]
  · rw [h3]
    simp only [atan2]
    rw [Real.cos_pi_div_two, Real.sin_pi_div_two]
    rw [if_neg (lt_irrefl 0), if_neg (lt_irrefl 0), if_pos one_pos]
  · have hcos : Real.cos θ < 0 :=
      Real.cos_neg_of_pi_div_two_lt_of_lt h3 (by linarith)
    have hsin : 0 ≤ Real.sin θ := Real.sin_nonneg_of_nonneg_of_le_pi (by linarith) h2
    simp only [atan2]
    rw [if_neg (not_lt.mpr hcos.le), if_pos hcos, if_pos hsin,
        ← Real.tan_eq_sin_div_cos]
    have hper : Real.tan (θ - Real.pi) = Real.tan θ := Real.tan_periodic.sub_eq θ
    rw [← hper, Real.arctan_tan (by linarith) (by linarith)]
    ring

/-- Roll numerator identity: twice the quaternion product combination
w x + y z equals sin of the roll angle times cos of the pitch angle, in
half angles a, b, c. -/
theorem quat_roll_sin (a b c : ℝ) :
    2 * ((Real.cos a * Real.cos b * Real.cos c + Real.sin a * Real.sin b * Real.sin c) *
        (Real.sin a * Real.cos b * Real.cos c - Real.cos a * Real.sin b * Real.sin c) +
        (Real.cos a * Real.sin b * Real.cos c + Real.sin a * Real.cos b * Real.sin c) *
        (Real.cos a * Real.cos b * Real.sin c - Real.sin a * Real.sin b * Real.cos c)) =
      Real.sin (2 * a) * Real.cos (2 * b) := by
  rw [Real.sin_two_mul, Real.cos_two_mul']
  linear_combination (2 * Real.sin a * Real.cos a * (Real.cos b ^ 2 - Real.sin b ^ 2)) *
    Real.sin_sq_add_cos_sq c

/-- Roll denominator identity: one minus twice the sum of the squares of the
x and y components equals cos roll times cos pitch. -/
theorem quat_roll_cos (a b c : ℝ) :
    1 - 2 * ((Real.sin a * Real.cos b * Real.cos c - Real.cos a * Real.sin b * Real.sin c) *
        (Real.sin a * Real.cos b * Real.cos c - Real.cos a * Real.sin b * Real.sin c) +
        (Real.cos a * Real.sin b * Real.cos c + Real.sin a * Real.cos b * Real.sin c) *
        (Real.cos a * Real.sin b * Real.cos c + Real.sin a * Real.cos b * Real.sin c)) =
      Real.cos (2 * a) * Real.cos (2 * b) := by
  rw [Real.cos_two_mul', Real.cos_two_mul']
  linear_combination (-(Real.sin b ^ 2 + Real.cos b ^ 2)) * Real.sin_sq_add_cos_sq a +
    (-1 : ℝ) * Real.sin_sq_add_cos_sq b +
    (-2 * (Real.sin a ^ 2 * Real.cos b ^ 2 + Real.cos a ^ 2 * Real.sin b ^ 2)) *
      Real.sin_sq_add_cos_sq c

/-- Pitch identity: twice w y minus z x equals sin of the pitch angle. -/
theorem quat_pitch_sin (a b c : ℝ) :
    2 * ((Real.cos a * Real.cos b * Real.cos c + Real.sin a * Real.sin b * Real.sin c) *
        (Real.cos a * Real.sin b * Real.cos c + Real.sin a * Real.cos b * Real.sin c) -
        (Real.cos a * Real.cos b * Real.sin c - Real.sin a * Real.sin b * Real.cos c) *
        (Real.sin a * Real.cos b * Real.cos c - Real.cos a * Real.sin b * Real.sin c)) =
      Real.sin (2 * b) := by
  rw [Real.sin_two_mul]
  linear_combination (2 * Real.sin b * Real.cos b * (Real.sin c ^ 2 + Real.cos c ^ 2)) *
    Real.sin_sq_add_cos_sq a + (2 * Real.sin b * Real.cos b) * Real.sin_sq_add_cos_sq c

/-- Yaw numerator identity. -/
theorem quat_yaw_sin (a b c : ℝ) :
    2 * ((Real.cos a * Real.cos b * Real.cos c + Real.sin a * Real.sin b * Real.sin c) *
        (Real.cos a * Real.cos b * Real.sin c - Real.sin a * Real.sin b * Real.cos c) +
        (Real.sin a * Real.cos b * Real.cos c - Real.cos a * Real.sin b * Real.sin c) *
        (Real.cos a * Real.sin b * Real.cos c + Real.sin a * Real.cos b * Real.sin c)) =
      Real.sin (2 * c) * Real.cos (2 * b) := by
  rw [Real.sin_two_mul, Real.cos_two_mul']
  linear_combination (2 * Real.sin c * Real.cos c * (Real.cos b ^ 2 - Real.sin b ^ 2)) *
    Real.sin_sq_add_cos_sq a

/-- Yaw denominator identity. -/
theorem quat_yaw_cos (a b c : ℝ) :
    1 - 2 * ((Real.cos a * Real.sin b * Real.cos c + Real.sin a * Real.cos b * Real.sin c) *
        (Real.cos a * Real.sin b * Real.cos c + Real.sin a * Real.cos b * Real.sin c) +
        (Real.cos a * Real.cos b * Real.sin c - Real.sin a * Real.sin b * Real.cos c) *
        (Real.cos a * Real.cos b * Real.sin c - Real.sin a * Real.sin b * Real.cos c)) =
      Real.cos (2 * c) * Real.cos (2 * b) := by
  rw [Real.cos_two_mul', Real.cos_two_mul']
  linear_combination (-2 * (Real.sin b ^ 2 * Real.cos c ^ 2 + Real.cos b ^ 2 * Real.sin c ^ 2)) *
    Real.sin_sq_add_cos_sq a + (-(Real.sin c ^ 2 + Real.cos c ^ 2)) * Real.sin_sq_add_cos_sq b +
    (-1 : ℝ) * Real.sin_sq_add_cos_sq c

/-- Degree angles in the half-open interval up to 180 map to radians in the
half-open interval up to pi. -/
theorem radiansOf_bounds (x : ℝ) (hlo : -180 < x) (hhi : x ≤ 180) :
    -Real.pi < radiansOf x ∧ radiansOf x ≤ Real.pi := by
  have hpi := Real.pi_pos
  rw [radiansOf]
  constructor
  · nlinarith [mul_pos (show (0:ℝ) < x + 180 by linarith) hpi]
  · nlinarith [mul_nonneg (show (0:ℝ) ≤ 180 - x by linarith) hpi.le]

/-- Pitch angles strictly inside the 90 degree band map strictly inside the
half-pi band. -/
theorem radiansOf_pitch_bounds (p : ℝ) (hp : |p| < 90) :
    -(Real.pi / 2) < radiansOf p ∧ radiansOf p < Real.pi / 2 := by
  have hpi := Real.pi_pos
  obtain ⟨hp1, hp2⟩ := abs_lt.mp hp
  rw [radiansOf]
  constructor
  · nlinarith [mul_pos (show (0:ℝ) < p + 90 by linarith) hpi]
  · nlinarith [mul_pos (show (0:ℝ) < 90 - p by linarith) hpi]

/-- Converting to radians and back to degrees is the identity. -/
theorem degreesOf_radiansOf (x : ℝ) : degreesOf (radiansOf x) = x := by
  rw [degreesOf, radiansOf]
  field_simp

/-- C8: for Euler angles in degrees with roll and yaw in the half-open
interval from minus 180 exclusive to 180 inclusive and pitch strictly
inside the 90-degree gimbal band, the quaternion round trip
quaternion_to_euler of euler_to_quaternion returns the angles exactly. -/
theorem C8_round_trip (r p yw : ℝ) (hr1 : -180 < r) (hr2 : r ≤ 180)
    (hp : |p| < 90) (hy1 : -180 < yw) (hy2 : yw ≤ 180) :
    quaternion_to_euler (euler_to_quaternion r p yw).w (euler_to_quaternion r p yw).x
      (euler_to_quaternion r p yw).y (euler_to_quaternion r p yw).z = (r, p, yw) := by
  have hra := radiansOf_bounds r hr1 hr2
  have hya := radiansOf_bounds yw hy1 hy2
  have hpb := radiansOf_pitch_bounds p hp
  have h2a : (2:ℝ) * (radiansOf r * 0.5) = radiansOf r := by ring
  have h2b : (2:ℝ) * (radiansOf p * 0.5) = radiansOf p := by ring
  have h2c : (2:ℝ) * (radiansOf yw * 0.5) = radiansOf yw := by ring
  have hcosb : 0 < Real.cos (2 * (radiansOf p * 0.5)) := by
    rw [h2b]
    exact Real.cos_pos_of_mem_Ioo ⟨hpb.1, hpb.2⟩
  simp only [euler_to_quaternion, quaternion_to_euler]
  rw [quat_roll_sin (radiansOf r * 0.5) (radiansOf p * 0.5) (radiansOf yw * 0.5),
      quat_roll_cos (radiansOf r * 0.5) (radiansOf p * 0.5) (radiansOf yw * 0.5),
      quat_yaw_sin (radiansOf r * 0.5) (radiansOf p * 0.5) (radiansOf yw * 0.5),
      quat_yaw_cos (radiansOf r * 0.5) (radiansOf p * 0.5) (radiansOf yw * 0.5)]
  simp only [quat_pitch_sin (radiansOf r * 0.5) (radiansOf p * 0.5) (radiansOf yw * 0.5)]
  rw [atan2_mul_pos _ _ _ hcosb, atan2_mul_pos _ _ _ hcosb]
  have hsb : |Real.sin (2 * (radiansOf p * 0.5))| < 1 := by
    rw [abs_lt]
    constructor <;> nlinarith [Real.sin_sq_add_cos_sq (2 * (radiansOf p * 0.5)),
      mul_pos hcosb hcosb]
  rw [if_neg (not_le.mpr hsb)]
  rw [Real.arcsin_sin (by linarith [hpb.1]) (by linarith [hpb.2])]
  rw [h2a, h2b, h2c]
  rw [atan2_sin_cos _ hra.1 hra.2, atan2_sin_cos _ hya.1 hya.2]
  rw [degreesOf_radiansOf, degreesOf_radiansOf, degreesOf_radiansOf]

/-- Witness for C8 at the zero Euler triple. -/
theorem C8_witness :
    quaternion_to_euler (euler_to_quaternion 0 0 0).w (euler_to_quaternion 0 0 0).x
      (euler_to_quaternion 0 0 0).y (euler_to_quaternion 0 0 0).z =
      ((0:ℝ), (0:ℝ), (0:ℝ)) :=
  C8_round_trip 0 0 0 (by norm_num) (by norm_num) (by norm_num) (by norm_num) (by norm_num)

end Pose
